import Mathlib

/-
Shallow embedding of `src/vga_buffer.rs` (the VGA text-mode screen buffer
writer of the rust-os repository) and proofs about it.

The Rust code keeps a single monotonically advancing counter
`char_numbers : usize`; row and column are derived as
`char_numbers / BUFFER_WIDTH` and `char_numbers % BUFFER_WIDTH`.
Machine integers are modelled as `Nat`; a separate "checked" model
(`write_byteC`, `new_lineC`, `runC`) returns `none` exactly when the
corresponding usize addition would exceed `usize::MAX` or a subtraction
would underflow, so totality of the checked run is overflow-freedom.
The grid is modelled as a total function `Nat → Nat → ScreenChar`; the
loops of the Rust code (the scroll copy loop, `clear_row`) are embedded
as structural recursions performing one `setCell` per loop iteration in
the same order as the source.
-/

namespace VgaBuffer

/-- `BUFFER_WIDTH` from the source: number of columns. -/
def BUFFER_WIDTH : Nat := 80

/-- `BUFFER_HEIGHT` from the source: number of visible rows. -/
def BUFFER_HEIGHT : Nat := 25

/-- Largest value of a 64-bit `usize`. -/
def USIZE_MAX : Nat := 2 ^ 64 - 1

/-- `ScreenChar` from the source: one cell, a glyph byte plus a packed
color byte.  Both bytes are modelled as `Nat`. -/
structure ScreenChar where
  ascii_character : Nat
  color_code : Nat
deriving DecidableEq, Repr

/-- The character grid, modelled as a total function from (row, column)
to cells. -/
def Grid : Type := Nat → Nat → ScreenChar

/-- Writing a single cell of the grid. -/
def setCell (g : Grid) (r c : Nat) (v : ScreenChar) : Grid :=
  fun r' c' => if r' = r ∧ c' = c then v else g r' c'

/-- The blank cell written by `clear_row`: a space glyph with the given
color code. -/
def blank (cc : Nat) : ScreenChar := ⟨32, cc⟩

/-- First `n` iterations of the inner copy loop of the scroll in
`new_line`: for `col` in `0..n`, read cell `(src, col)` from the current
grid and write it to `(dst, col)`. -/
def copyRowAux (src dst : Nat) (g : Grid) : Nat → Grid
  | 0 => g
  | n + 1 =>
    let acc := copyRowAux src dst g n
    setCell acc dst n (acc src n)

/-- The full inner copy loop: `for col in 0..BUFFER_WIDTH` copy
`(src, col)` to `(dst, col)`. -/
def copyRowLoop (src dst : Nat) (g : Grid) : Grid :=
  copyRowAux src dst g BUFFER_WIDTH

/-- First `n` iterations of the outer scroll loop of `new_line`:
iteration `k` (0-based) handles source row `k + 1`, copying it into row
`k`, exactly as `for row in 1..BUFFER_HEIGHT` does. -/
def scrollRowsAux (g : Grid) : Nat → Grid
  | 0 => g
  | n + 1 => copyRowLoop (n + 1) n (scrollRowsAux g n)

/-- The full scroll loop of `new_line`: rows `1..BUFFER_HEIGHT` each
moved up one row, in top-to-bottom order. -/
def scrollRows (g : Grid) : Grid :=
  scrollRowsAux g (BUFFER_HEIGHT - 1)

/-- First `n` iterations of the loop in `Writer::clear_row`: cells
`(row, 0) .. (row, n-1)` overwritten with the blank cell. -/
def clearRowAux (row cc : Nat) (g : Grid) : Nat → Grid
  | 0 => g
  | n + 1 => setCell (clearRowAux row cc g n) row n (blank cc)

/-- `Writer::clear_row`: every cell of `row` overwritten with a blank
cell of the given color code. -/
def clear_row (g : Grid) (row cc : Nat) : Grid :=
  clearRowAux row cc g BUFFER_WIDTH

/-- `Writer` from the source: the cursor counter `char_numbers`, the
current color code and the grid. -/
structure Writer where
  char_numbers : Nat
  color_code : Nat
  grid : Grid

/-- The overflow guard at the top of `Writer::new_line`: when the
counter is within one page (`BUFFER_WIDTH * BUFFER_HEIGHT` cells) of
`usize::MAX` it is reduced modulo the page size. -/
def nlGuard (c : Nat) : Nat :=
  if USIZE_MAX - BUFFER_WIDTH * BUFFER_HEIGHT ≤ c then
    c % (BUFFER_WIDTH * BUFFER_HEIGHT)
  else c

/-- The cursor produced by `Writer::new_line`: after the overflow
guard, round up to the start of the next row
(`c + BUFFER_WIDTH - c % BUFFER_WIDTH`). -/
def nlCursor (c : Nat) : Nat :=
  nlGuard c + BUFFER_WIDTH - nlGuard c % BUFFER_WIDTH

/-- `Writer::new_line`: guard the counter, advance it to the next
multiple of `BUFFER_WIDTH`, and scroll (shift all rows up and blank the
last row) when the resulting row reaches `BUFFER_HEIGHT - 1`. -/
def new_line (s : Writer) : Writer :=
  let c1 := nlCursor s.char_numbers
  if BUFFER_HEIGHT - 1 ≤ c1 / BUFFER_WIDTH then
    { s with
      char_numbers := c1
      grid := clear_row (scrollRows s.grid) (BUFFER_HEIGHT - 1) s.color_code }
  else
    { s with char_numbers := c1 }

/-- Number of scrolls performed by one `new_line` call: 1 when the
scroll branch is taken, otherwise 0. -/
def newLineScrollCount (s : Writer) : Nat :=
  if BUFFER_HEIGHT - 1 ≤ nlCursor s.char_numbers / BUFFER_WIDTH then 1 else 0

/-- `Writer::write_byte`: a newline byte invokes `new_line`; any other
byte is written at the derived position, with the row clamped to the
last row when the counter has run past the visible area, and the
last-column-of-last-row case scrolling first and writing into row
`BUFFER_HEIGHT - 2` while compensating the counter. -/
def write_byte (s : Writer) (byte : Nat) : Writer :=
  if byte = 10 then new_line s
  else
    let row := s.char_numbers / BUFFER_WIDTH
    let col := s.char_numbers % BUFFER_WIDTH
    if BUFFER_HEIGHT - 1 ≤ row then
      if BUFFER_WIDTH - 1 ≤ col then
        let s1 := new_line s
        let s2 : Writer := { s1 with char_numbers := s1.char_numbers - 1 }
        let s3 : Writer :=
          { s2 with grid := setCell s2.grid (BUFFER_HEIGHT - 2) col ⟨byte, s2.color_code⟩ }
        { s3 with char_numbers := s3.char_numbers + 1 }
      else
        { s with
          grid := setCell s.grid (BUFFER_HEIGHT - 1) col ⟨byte, s.color_code⟩
          char_numbers := s.char_numbers + 1 }
    else
      { s with
        grid := setCell s.grid row col ⟨byte, s.color_code⟩
        char_numbers := s.char_numbers + 1 }

/-- Number of scrolls performed by one `write_byte` call. -/
def writeByteScrollCount (s : Writer) (byte : Nat) : Nat :=
  if byte = 10 then newLineScrollCount s
  else if BUFFER_HEIGHT - 1 ≤ s.char_numbers / BUFFER_WIDTH ∧
          BUFFER_WIDTH - 1 ≤ s.char_numbers % BUFFER_WIDTH then
    newLineScrollCount s
  else 0

/-- The byte-range test of `Writer::write_string`: printable ASCII
(0x20–0x7E) and the newline byte pass through. -/
def printableOrNewline (b : Nat) : Prop := (0x20 ≤ b ∧ b ≤ 0x7e) ∨ b = 10

instance (b : Nat) : Decidable (printableOrNewline b) := by
  unfold printableOrNewline; infer_instance

/-- `Writer::write_string`: each byte in the printable range or a
newline is forwarded to `write_byte` unchanged; any other byte is
replaced by the placeholder 0xFE. -/
def write_string (s : Writer) (bytes : List Nat) : Writer :=
  bytes.foldl
    (fun st b => if printableOrNewline b then write_byte st b else write_byte st 0xfe) s

/-- Number of scrolls performed by one `write_string` call. -/
def writeStringScrollCount (s : Writer) : List Nat → Nat
  | [] => 0
  | b :: rest =>
    let b' := if printableOrNewline b then b else 0xfe
    writeByteScrollCount s b' + writeStringScrollCount (write_byte s b') rest

/-- One public operation on the writer. -/
inductive Op where
  | byte (b : Nat)
  | str (bs : List Nat)

/-- Executing one operation. -/
def runOp (s : Writer) : Op → Writer
  | .byte b => write_byte s b
  | .str bs => write_string s bs

/-- Executing a sequence of operations. -/
def run (ops : List Op) (s : Writer) : Writer := ops.foldl runOp s

/-- Total number of scrolls performed while executing a sequence of
operations. -/
def runScrollCount (s : Writer) : List Op → Nat
  | [] => 0
  | op :: rest =>
    (match op with
     | .byte b => writeByteScrollCount s b
     | .str bs => writeStringScrollCount s bs) + runScrollCount (runOp s op) rest

/-- The color code of the static `WRITER`:
`ColorCode::new(Color::Green, Color::Black) = (0 << 4) | 2`. -/
def initColor : Nat := 2

/-- The empty (all-blank) grid of the initial logical state. -/
def blankGrid : Grid := fun _ _ => blank initColor

/-- The initial writer: cursor 0, green-on-black, empty grid. -/
def initialWriter : Writer :=
  { char_numbers := 0, color_code := initColor, grid := blankGrid }

/-- A writer state reachable from the initial state by some sequence of
`write_byte` / `write_string` calls. -/
def Reachable (s : Writer) : Prop := ∃ ops : List Op, run ops initialWriter = s

/-! ### Checked (machine-faithful) model

The same operations, but every `usize` addition and subtraction is
checked: an addition whose exact result exceeds `USIZE_MAX`, or a
subtraction whose subtrahend exceeds its minuend, yields `none` — the
event where the machine integer would wrap. -/

/-- Checked usize addition. -/
def checkedAdd (a b : Nat) : Option Nat :=
  if a + b ≤ USIZE_MAX then some (a + b) else none

/-- Checked usize subtraction. -/
def checkedSub (a b : Nat) : Option Nat :=
  if b ≤ a then some (a - b) else none

/-- `Writer::new_line` with checked cursor arithmetic. -/
def new_lineC (s : Writer) : Option Writer :=
  match checkedAdd (nlGuard s.char_numbers) BUFFER_WIDTH with
  | none => none
  | some t =>
    match checkedSub t (nlGuard s.char_numbers % BUFFER_WIDTH) with
    | none => none
    | some c1 =>
      if BUFFER_HEIGHT - 1 ≤ c1 / BUFFER_WIDTH then
        some { s with
               char_numbers := c1
               grid := clear_row (scrollRows s.grid) (BUFFER_HEIGHT - 1) s.color_code }
      else
        some { s with char_numbers := c1 }

/-- `Writer::write_byte` with checked cursor arithmetic. -/
def write_byteC (s : Writer) (byte : Nat) : Option Writer :=
  if byte = 10 then new_lineC s
  else
    let row := s.char_numbers / BUFFER_WIDTH
    let col := s.char_numbers % BUFFER_WIDTH
    if BUFFER_HEIGHT - 1 ≤ row then
      if BUFFER_WIDTH - 1 ≤ col then
        match new_lineC s with
        | none => none
        | some s1 =>
          match checkedSub s1.char_numbers 1 with
          | none => none
          | some c2 =>
            match checkedAdd c2 1 with
            | none => none
            | some c4 =>
              some { s1 with
                     char_numbers := c4
                     grid := setCell s1.grid (BUFFER_HEIGHT - 2) col ⟨byte, s1.color_code⟩ }
      else
        match checkedAdd s.char_numbers 1 with
        | none => none
        | some c' =>
          some { s with
                 grid := setCell s.grid (BUFFER_HEIGHT - 1) col ⟨byte, s.color_code⟩
                 char_numbers := c' }
    else
      match checkedAdd s.char_numbers 1 with
      | none => none
      | some c' =>
        some { s with
               grid := setCell s.grid row col ⟨byte, s.color_code⟩
               char_numbers := c' }

/-- `Writer::write_string` with checked cursor arithmetic. -/
def write_stringC (s : Writer) : List Nat → Option Writer
  | [] => some s
  | b :: rest =>
    match write_byteC s (if printableOrNewline b then b else 0xfe) with
    | none => none
    | some s' => write_stringC s' rest

/-- Executing one operation in the checked model. -/
def runOpC (s : Writer) : Op → Option Writer
  | .byte b => write_byteC s b
  | .str bs => write_stringC s bs

/-- Executing a sequence of operations in the checked model. -/
def runC : List Op → Writer → Option Writer
  | [], s => some s
  | op :: rest, s =>
    match runOpC s op with
    | none => none
    | some s' => runC rest s'

/-! ### Grid access traces

Each operation's grid cell accesses (reads and writes), as (row,
column) pairs, mirroring the loops and branches of the source. -/

/-- Accesses of the inner scroll copy loop: for each column, a read of
`(src, col)` and a write of `(dst, col)`. -/
def copyRowAccesses (src dst : Nat) : List (Nat × Nat) :=
  (List.range BUFFER_WIDTH).flatMap (fun c => [(src, c), (dst, c)])

/-- Accesses of the scroll loop: rows `1..BUFFER_HEIGHT` each copied
into the row above. -/
def scrollAccesses : List (Nat × Nat) :=
  (List.range (BUFFER_HEIGHT - 1)).flatMap (fun k => copyRowAccesses (k + 1) k)

/-- Accesses of `Writer::clear_row`. -/
def clearRowAccesses (row : Nat) : List (Nat × Nat) :=
  (List.range BUFFER_WIDTH).map (fun c => (row, c))

/-- Accesses of `Writer::new_line`. -/
def newLineAccesses (s : Writer) : List (Nat × Nat) :=
  if BUFFER_HEIGHT - 1 ≤ nlCursor s.char_numbers / BUFFER_WIDTH then
    scrollAccesses ++ clearRowAccesses (BUFFER_HEIGHT - 1)
  else []

/-- Accesses of `Writer::write_byte`. -/
def writeByteAccesses (s : Writer) (byte : Nat) : List (Nat × Nat) :=
  if byte = 10 then newLineAccesses s
  else
    let row := s.char_numbers / BUFFER_WIDTH
    let col := s.char_numbers % BUFFER_WIDTH
    if BUFFER_HEIGHT - 1 ≤ row then
      if BUFFER_WIDTH - 1 ≤ col then
        newLineAccesses s ++ [(BUFFER_HEIGHT - 2, col)]
      else [(BUFFER_HEIGHT - 1, col)]
    else [(row, col)]

/-- Accesses of `Writer::write_string`. -/
def writeStringAccesses (s : Writer) : List Nat → List (Nat × Nat)
  | [] => []
  | b :: rest =>
    let b' := if printableOrNewline b then b else 0xfe
    writeByteAccesses s b' ++ writeStringAccesses (write_byte s b') rest

/-- Accesses of one operation. -/
def opAccesses (s : Writer) : Op → List (Nat × Nat)
  | .byte b => writeByteAccesses s b
  | .str bs => writeStringAccesses s bs

/-- Accesses of a sequence of operations. -/
def runAccesses (s : Writer) : List Op → List (Nat × Nat)
  | [] => []
  | op :: rest => opAccesses s op ++ runAccesses (runOp s op) rest

/-! ### Concrete states and programs used in witnesses and
counterexamples -/

/-- A writer whose cursor sits at the last column of the last row
(1999 / 80 = 24, 1999 % 80 = 79). -/
def lastCellWriter : Writer :=
  { char_numbers := 1999, color_code := initColor, grid := blankGrid }

/-- A grid whose cells record their own row: cell `(r, c)` holds glyph
`40 + r`. -/
def rowTagGrid : Grid := fun r _ => ⟨40 + r, initColor⟩

/-- A writer about to scroll, over the row-tagged grid. -/
def rowTagWriter : Writer :=
  { char_numbers := 1999, color_code := initColor, grid := rowTagGrid }

/-- 24 newlines followed by 79 printable bytes: drives the initial
writer to cursor 1999 (last column of the last row). -/
def toLastCellOps : List Op :=
  List.replicate 24 (Op.byte 10) ++ List.replicate 79 (Op.byte 65)

/-- One page row's worth of fill bytes: 80 copies of the printable
glyph `33 + r`, so different rows carry different glyphs. -/
def rowFillBytes (r : Nat) : List Nat := List.replicate BUFFER_WIDTH (33 + r)

/-- 25 * 80 = 2000 printable bytes filling the whole page, row by
row. -/
def pageFillBytes : List Nat := (List.range BUFFER_HEIGHT).flatMap rowFillBytes

/-- A writer whose cursor is within one page of `usize::MAX`. -/
def nearMaxWriter : Writer :=
  { char_numbers := USIZE_MAX - 1000, color_code := initColor, grid := blankGrid }

/-! ### The `Buffer` declaration

The source declares
`struct Buffer { chars: [[Volatile<ScreenChar>; BUFFER_WIDTH]; BUFFER_WIDTH] }`:
both the outer (row) and inner (column) array lengths are
`BUFFER_WIDTH`. -/

/-- The `Buffer` struct as declared in the source: a
`BUFFER_WIDTH × BUFFER_WIDTH` array of cells. -/
structure Buffer where
  chars : Fin BUFFER_WIDTH → Fin BUFFER_WIDTH → ScreenChar

/-- Number of rows of the declared `Buffer.chars` array: the outer
array length written in the source is `BUFFER_WIDTH`. -/
def bufferDeclaredRows : Nat := BUFFER_WIDTH

/-- Number of columns of the declared `Buffer.chars` array. -/
def bufferDeclaredCols : Nat := BUFFER_WIDTH

/-- The spec-side byte mapping of `write_string`, written from the
spec's words: printable ASCII and newline forwarded unchanged, every
other byte replaced by the fixed placeholder 0xFE. -/
def specForward (b : Nat) : Nat :=
  if printableOrNewline b then b else 0xfe

/-- The spec's unbounded-integer model of the newline cursor step:
round the counter up to the next multiple of `BUFFER_WIDTH`, with no
overflow guard. -/
def unboundedNlCursor (c : Nat) : Nat :=
  c + BUFFER_WIDTH - c % BUFFER_WIDTH

/-- Cell provenance used for the placeholder-substitution property: a
cell value is acceptable after `write_string` when it already occurs in
the starting grid, or its glyph is printable ASCII, or its glyph is the
placeholder 0xFE. -/
def CellOK (s0 : Writer) (v : ScreenChar) : Prop :=
  (∃ r c, v = s0.grid r c) ∨
    (0x20 ≤ v.ascii_character ∧ v.ascii_character ≤ 0x7e) ∨
    v.ascii_character = 0xfe

/-- The cursor-range invariant maintained by every reachable state:
the counter stays at least 1856 cells below `usize::MAX` (1856 = one
page minus the distance from the largest post-guard multiple of
`BUFFER_WIDTH` to the next column-79 position). -/
def Inv (s : Writer) : Prop := s.char_numbers ≤ USIZE_MAX - 1856

/-! ## Helper lemmas -/

theorem setCell_apply (g : Grid) (r c : Nat) (v : ScreenChar) (r' c' : Nat) :
    setCell g r c v r' c' = if r' = r ∧ c' = c then v else g r' c' := rfl

theorem copyRowAux_apply (src dst : Nat) (g : Grid) (n : Nat) (h : src ≠ dst)
    (r c : Nat) :
    copyRowAux src dst g n r c = if r = dst ∧ c < n then g src c else g r c := by
  induction n generalizing r c with
  | zero => simp [copyRowAux]
  | succ n ih =>
    show setCell (copyRowAux src dst g n) dst n (copyRowAux src dst g n src n) r c = _
    rw [setCell_apply, ih r c, ih src n]
    have hsrc : ¬(src = dst ∧ n < n) := by omega
    rw [if_neg hsrc]
    by_cases hd : r = dst
    · by_cases hc : c = n
      · simp [hd, hc]
      · by_cases hcn : c < n
        · simp [hd, hc, hcn, show c < n + 1 by omega]
        · simp [hd, hc, hcn, show ¬c < n + 1 by omega]
    · simp [hd]

theorem copyRowLoop_apply (src dst : Nat) (g : Grid) (h : src ≠ dst) (r c : Nat) :
    copyRowLoop src dst g r c =
      if r = dst ∧ c < BUFFER_WIDTH then g src c else g r c :=
  copyRowAux_apply src dst g BUFFER_WIDTH h r c

theorem scrollRowsAux_apply (g : Grid) (n : Nat) (r c : Nat) :
    scrollRowsAux g n r c =
      if r < n ∧ c < BUFFER_WIDTH then g (r + 1) c else g r c := by
  induction n generalizing r c with
  | zero => simp [scrollRowsAux]
  | succ n ih =>
    show copyRowLoop (n + 1) n (scrollRowsAux g n) r c = _
    rw [copyRowLoop_apply _ _ _ (by omega), ih r c, ih (n + 1) c]
    have hnn : ¬(n + 1 < n ∧ c < BUFFER_WIDTH) := by omega
    rw [if_neg hnn]
    by_cases hw : c < BUFFER_WIDTH
    · by_cases hr : r = n
      · simp [hr, hw]
      · by_cases hrn : r < n
        · simp [hr, hrn, hw, show r < n + 1 by omega]
        · simp [hr, hrn, hw, show ¬r < n + 1 by omega]
    · simp [hw]

theorem scrollRows_apply (g : Grid) (r c : Nat) :
    scrollRows g r c =
      if r < BUFFER_HEIGHT - 1 ∧ c < BUFFER_WIDTH then g (r + 1) c else g r c :=
  scrollRowsAux_apply g (BUFFER_HEIGHT - 1) r c

theorem clearRowAux_apply (row cc : Nat) (g : Grid) (n : Nat) (r c : Nat) :
    clearRowAux row cc g n r c =
      if r = row ∧ c < n then blank cc else g r c := by
  induction n generalizing r c with
  | zero => simp [clearRowAux]
  | succ n ih =>
    show setCell (clearRowAux row cc g n) row n (blank cc) r c = _
    rw [setCell_apply, ih r c]
    by_cases hd : r = row
    · by_cases hc : c = n
      · simp [hd, hc]
      · by_cases hcn : c < n
        · simp [hd, hc, hcn, show c < n + 1 by omega]
        · simp [hd, hc, hcn, show ¬c < n + 1 by omega]
    · simp [hd]

theorem clear_row_apply (g : Grid) (row cc : Nat) (r c : Nat) :
    clear_row g row cc r c =
      if r = row ∧ c < BUFFER_WIDTH then blank cc else g r c :=
  clearRowAux_apply row cc g BUFFER_WIDTH r c

/-- Pointwise description of the scrolled-and-cleared grid built inside
`new_line`. -/
theorem scrolled_apply (g : Grid) (cc : Nat) (r c : Nat) :
    clear_row (scrollRows g) (BUFFER_HEIGHT - 1) cc r c =
      if r = BUFFER_HEIGHT - 1 ∧ c < BUFFER_WIDTH then blank cc
      else if r < BUFFER_HEIGHT - 1 ∧ c < BUFFER_WIDTH then g (r + 1) c
      else g r c := by
  rw [clear_row_apply, scrollRows_apply]

theorem USIZE_MAX_eq : USIZE_MAX = 18446744073709551615 := by norm_num [USIZE_MAX]

theorem nlGuard_bounds (c : Nat) :
    nlGuard c ≤ USIZE_MAX - BUFFER_WIDTH * BUFFER_HEIGHT - 1 := by
  unfold nlGuard
  split
  · have := Nat.mod_lt c (show 0 < BUFFER_WIDTH * BUFFER_HEIGHT by decide)
    simp only [BUFFER_WIDTH, BUFFER_HEIGHT, USIZE_MAX_eq] at *
    omega
  · simp only [BUFFER_WIDTH, BUFFER_HEIGHT, USIZE_MAX_eq] at *
    omega

theorem nlCursor_le (c : Nat) : nlCursor c ≤ USIZE_MAX - 1921 := by
  have h := nlGuard_bounds c
  unfold nlCursor
  have h80 : nlGuard c % BUFFER_WIDTH < BUFFER_WIDTH :=
    Nat.mod_lt _ (by decide)
  simp only [BUFFER_WIDTH, BUFFER_HEIGHT, USIZE_MAX_eq] at *
  omega

theorem nlCursor_ge (c : Nat) : BUFFER_WIDTH ≤ nlCursor c := by
  unfold nlCursor
  have h80 : nlGuard c % BUFFER_WIDTH ≤ nlGuard c := Nat.mod_le _ _
  omega

theorem nlCursor_mod (c : Nat) : nlCursor c % BUFFER_WIDTH = 0 := by
  unfold nlCursor
  simp only [BUFFER_WIDTH]
  omega

theorem new_line_char_numbers (s : Writer) :
    (new_line s).char_numbers = nlCursor s.char_numbers := by
  simp only [new_line]
  split <;> rfl

theorem new_line_color (s : Writer) :
    (new_line s).color_code = s.color_code := by
  simp only [new_line]
  split <;> rfl

theorem new_line_grid_scroll (s : Writer)
    (h : BUFFER_HEIGHT - 1 ≤ nlCursor s.char_numbers / BUFFER_WIDTH) :
    (new_line s).grid = clear_row (scrollRows s.grid) (BUFFER_HEIGHT - 1) s.color_code := by
  simp only [new_line]
  rw [if_pos h]

theorem new_line_grid_no_scroll (s : Writer)
    (h : ¬ BUFFER_HEIGHT - 1 ≤ nlCursor s.char_numbers / BUFFER_WIDTH) :
    (new_line s).grid = s.grid := by
  simp only [new_line]
  rw [if_neg h]

theorem write_byte_newline (s : Writer) : write_byte s 10 = new_line s := rfl

theorem write_byte_normal (s : Writer) (b : Nat) (hb : b ≠ 10)
    (hrow : ¬ BUFFER_HEIGHT - 1 ≤ s.char_numbers / BUFFER_WIDTH) :
    write_byte s b =
      { s with
        grid := setCell s.grid (s.char_numbers / BUFFER_WIDTH)
                  (s.char_numbers % BUFFER_WIDTH) ⟨b, s.color_code⟩
        char_numbers := s.char_numbers + 1 } := by
  unfold write_byte
  rw [if_neg hb, if_neg hrow]

theorem write_byte_clamp (s : Writer) (b : Nat) (hb : b ≠ 10)
    (hrow : BUFFER_HEIGHT - 1 ≤ s.char_numbers / BUFFER_WIDTH)
    (hcol : ¬ BUFFER_WIDTH - 1 ≤ s.char_numbers % BUFFER_WIDTH) :
    write_byte s b =
      { s with
        grid := setCell s.grid (BUFFER_HEIGHT - 1)
                  (s.char_numbers % BUFFER_WIDTH) ⟨b, s.color_code⟩
        char_numbers := s.char_numbers + 1 } := by
  unfold write_byte
  rw [if_neg hb, if_pos hrow, if_neg hcol]

theorem write_byte_last (s : Writer) (b : Nat) (hb : b ≠ 10)
    (hrow : BUFFER_HEIGHT - 1 ≤ s.char_numbers / BUFFER_WIDTH)
    (hcol : BUFFER_WIDTH - 1 ≤ s.char_numbers % BUFFER_WIDTH) :
    write_byte s b =
      { new_line s with
        grid := setCell (new_line s).grid (BUFFER_HEIGHT - 2)
                  (s.char_numbers % BUFFER_WIDTH) ⟨b, (new_line s).color_code⟩
        char_numbers := (new_line s).char_numbers - 1 + 1 } := by
  unfold write_byte
  rw [if_neg hb, if_pos hrow, if_pos hcol]

theorem write_byte_color (s : Writer) (b : Nat) :
    (write_byte s b).color_code = s.color_code := by
  by_cases hb : b = 10
  · rw [hb, write_byte_newline, new_line_color]
  · by_cases hrow : BUFFER_HEIGHT - 1 ≤ s.char_numbers / BUFFER_WIDTH
    · by_cases hcol : BUFFER_WIDTH - 1 ≤ s.char_numbers % BUFFER_WIDTH
      · rw [write_byte_last s b hb hrow hcol]
        exact new_line_color s
      · rw [write_byte_clamp s b hb hrow hcol]
    · rw [write_byte_normal s b hb hrow]

/-! ## Claim C1 -/

/-- C1 (counterexample): at the concrete reachable-shape state with
cursor 1999 — the last column (1999 % 80 = 79) of the last row
(1999 / 80 = 24) — processing a newline does scroll, but the cursor
ends at 2000, whose derived row is 2000 / 80 = 25 = ROWS, not
ROWS - 1 = 24: the claimed re-anchoring `cursor / COLS = ROWS - 1`
is false. -/
theorem newline_reanchor_cx :
    ¬ (newLineScrollCount lastCellWriter = 1 ∧
       (new_line lastCellWriter).char_numbers / BUFFER_WIDTH = BUFFER_HEIGHT - 1 ∧
       (new_line lastCellWriter).char_numbers % BUFFER_WIDTH = 0) := by
  decide

/-- C1 (amended): if a newline is processed while the cursor sits at
the last column of the last row, the grid scrolls exactly once and the
cursor ends at ROWS*COLS = 2000: its derived column (cursor % COLS) is
0 but its derived row (cursor / COLS) is ROWS, one past the last
visible row, and the cursor is not re-anchored; the clamp in
`write_byte` then makes the next non-newline byte land at the first
column of the last visible row. -/
theorem newline_last_cell (s : Writer)
    (hrow : s.char_numbers / BUFFER_WIDTH = BUFFER_HEIGHT - 1)
    (hcol : s.char_numbers % BUFFER_WIDTH = BUFFER_WIDTH - 1) :
    newLineScrollCount s = 1 ∧
    (new_line s).char_numbers = BUFFER_HEIGHT * BUFFER_WIDTH ∧
    (new_line s).char_numbers % BUFFER_WIDTH = 0 ∧
    (new_line s).char_numbers / BUFFER_WIDTH = BUFFER_HEIGHT ∧
    ∀ b, b ≠ 10 →
      (write_byte (new_line s) b).grid (BUFFER_HEIGHT - 1) 0 = ⟨b, s.color_code⟩ := by
  have hc : s.char_numbers = 1999 := by
    simp only [BUFFER_WIDTH, BUFFER_HEIGHT] at hrow hcol
    omega
  have h2000 : nlCursor s.char_numbers = 2000 := by rw [hc]; decide
  have hnlcur : (new_line s).char_numbers = 2000 := by
    rw [new_line_char_numbers, h2000]
  refine ⟨?_, ?_, ?_, ?_, ?_⟩
  · unfold newLineScrollCount
    rw [h2000]
    decide
  · rw [hnlcur]; decide
  · rw [hnlcur]; decide
  · rw [hnlcur]; decide
  · intro b hb
    rw [write_byte_clamp (new_line s) b hb (by rw [hnlcur]; decide)
          (by rw [hnlcur]; decide)]
    show setCell (new_line s).grid (BUFFER_HEIGHT - 1)
      ((new_line s).char_numbers % BUFFER_WIDTH) ⟨b, (new_line s).color_code⟩
      (BUFFER_HEIGHT - 1) 0 = _
    rw [setCell_apply, hnlcur, new_line_color]
    simp [show (2000 : Nat) % BUFFER_WIDTH = 0 from by decide]

/-- Witness for C1's amended theorem at the concrete state with cursor
1999. -/
theorem newline_last_cell_witness :
    lastCellWriter.char_numbers / BUFFER_WIDTH = BUFFER_HEIGHT - 1 ∧
    lastCellWriter.char_numbers % BUFFER_WIDTH = BUFFER_WIDTH - 1 ∧
    (newLineScrollCount lastCellWriter = 1 ∧
     (new_line lastCellWriter).char_numbers = BUFFER_HEIGHT * BUFFER_WIDTH ∧
     (new_line lastCellWriter).char_numbers % BUFFER_WIDTH = 0 ∧
     (new_line lastCellWriter).char_numbers / BUFFER_WIDTH = BUFFER_HEIGHT ∧
     ∀ b, b ≠ 10 →
       (write_byte (new_line lastCellWriter) b).grid (BUFFER_HEIGHT - 1) 0 =
         ⟨b, lastCellWriter.color_code⟩) :=
  ⟨by decide, by decide, newline_last_cell lastCellWriter (by decide) (by decide)⟩

/-! ## Claim C2 -/

/-- C2: whenever `new_line` performs a scroll, afterwards every row
`i < ROWS - 1` holds exactly what the pre-scroll row `i + 1` held, and
row `ROWS - 1` consists entirely of blank cells (space glyph with the
current style). -/
theorem scroll_shifts_rows (s : Writer) (h : newLineScrollCount s = 1) :
    (∀ i, i < BUFFER_HEIGHT - 1 → ∀ j, j < BUFFER_WIDTH →
        (new_line s).grid i j = s.grid (i + 1) j) ∧
    (∀ j, j < BUFFER_WIDTH →
        (new_line s).grid (BUFFER_HEIGHT - 1) j = blank s.color_code) := by
  have hcond : BUFFER_HEIGHT - 1 ≤ nlCursor s.char_numbers / BUFFER_WIDTH := by
    by_contra hc
    simp [newLineScrollCount, hc] at h
  rw [new_line_grid_scroll s hcond]
  constructor
  · intro i hi j hj
    rw [scrolled_apply]
    simp [show i ≠ BUFFER_HEIGHT - 1 by omega, hi, hj]
  · intro j hj
    rw [scrolled_apply]
    simp [hj]

/-- Witness for C2 on a concrete scrolling state whose grid tags every
cell with its row number. -/
theorem scroll_shifts_rows_witness :
    newLineScrollCount rowTagWriter = 1 ∧
    ((∀ i, i < BUFFER_HEIGHT - 1 → ∀ j, j < BUFFER_WIDTH →
        (new_line rowTagWriter).grid i j = rowTagWriter.grid (i + 1) j) ∧
     (∀ j, j < BUFFER_WIDTH →
        (new_line rowTagWriter).grid (BUFFER_HEIGHT - 1) j =
          blank rowTagWriter.color_code)) :=
  ⟨by decide, scroll_shifts_rows rowTagWriter (by decide)⟩

/-! ## Claim C9 -/

/-- C9: the `Buffer` struct as declared in the source has
`BUFFER_WIDTH = 80` rows (its outer array length is written
`BUFFER_WIDTH`, not `BUFFER_HEIGHT`) and 80 columns; the declared row
count is not the 25 of `BUFFER_HEIGHT` that the spec states. -/
theorem buffer_shape_mismatch :
    bufferDeclaredRows = 80 ∧ bufferDeclaredCols = 80 ∧
    bufferDeclaredRows ≠ BUFFER_HEIGHT := by
  decide

/-! ## Claim C10 -/

/-- C10: `write_byte` with any non-newline byte — in or out of the
printable range — stores that byte value verbatim, paired with the
current style, into the written cell: no placeholder substitution
happens at the `write_byte` interface. -/
theorem write_byte_stores_verbatim (s : Writer) (b : Nat) (hb : b ≠ 10) :
    ∃ r c, r < BUFFER_HEIGHT ∧ c < BUFFER_WIDTH ∧
      (write_byte s b).grid r c = ⟨b, s.color_code⟩ := by
  have hcw : s.char_numbers % BUFFER_WIDTH < BUFFER_WIDTH :=
    Nat.mod_lt _ (by decide)
  by_cases hrow : BUFFER_HEIGHT - 1 ≤ s.char_numbers / BUFFER_WIDTH
  · by_cases hcol : BUFFER_WIDTH - 1 ≤ s.char_numbers % BUFFER_WIDTH
    · refine ⟨BUFFER_HEIGHT - 2, s.char_numbers % BUFFER_WIDTH, by decide, hcw, ?_⟩
      rw [write_byte_last s b hb hrow hcol]
      show setCell (new_line s).grid (BUFFER_HEIGHT - 2)
        (s.char_numbers % BUFFER_WIDTH) ⟨b, (new_line s).color_code⟩
        (BUFFER_HEIGHT - 2) (s.char_numbers % BUFFER_WIDTH) = _
      rw [setCell_apply, new_line_color]
      simp
    · refine ⟨BUFFER_HEIGHT - 1, s.char_numbers % BUFFER_WIDTH, by decide, hcw, ?_⟩
      rw [write_byte_clamp s b hb hrow hcol]
      show setCell s.grid (BUFFER_HEIGHT - 1)
        (s.char_numbers % BUFFER_WIDTH) ⟨b, s.color_code⟩
        (BUFFER_HEIGHT - 1) (s.char_numbers % BUFFER_WIDTH) = _
      rw [setCell_apply]
      simp
  · refine ⟨s.char_numbers / BUFFER_WIDTH, s.char_numbers % BUFFER_WIDTH,
      by simp only [BUFFER_HEIGHT] at *; omega, hcw, ?_⟩
    rw [write_byte_normal s b hb hrow]
    show setCell s.grid (s.char_numbers / BUFFER_WIDTH)
      (s.char_numbers % BUFFER_WIDTH) ⟨b, s.color_code⟩
      (s.char_numbers / BUFFER_WIDTH) (s.char_numbers % BUFFER_WIDTH) = _
    rw [setCell_apply]
    simp

/-- Witness for C10 with the out-of-range byte 0x01 at the initial
state. -/
theorem write_byte_stores_verbatim_witness :
    (1 : Nat) ≠ 10 ∧
    ∃ r c, r < BUFFER_HEIGHT ∧ c < BUFFER_WIDTH ∧
      (write_byte initialWriter 1).grid r c = ⟨1, initialWriter.color_code⟩ :=
  ⟨by decide, write_byte_stores_verbatim initialWriter 1 (by decide)⟩

/-! ## Claim C3 -/

set_option maxRecDepth 4000000

/-- C3 (counterexample): the one-cell frame property fails on the
reachable state with cursor 1999 (reached by 24 newlines then 79
printable bytes): writing byte 66 there scrolls the grid, so at least
two cells change — cell (23, 79) becomes the new byte while cell
(24, 0), which held byte 65, is blanked. -/
theorem write_byte_frame_cx :
    ¬ (∀ (b : Nat), b ≠ 10 → ∀ (s : Writer), Reachable s →
        (write_byte s b).char_numbers = s.char_numbers + 1 ∧
        (write_byte s b).color_code = s.color_code ∧
        ∃ r c, (write_byte s b).grid r c = ⟨b, s.color_code⟩ ∧
          ∀ r' c', ¬ (r' = r ∧ c' = c) →
            (write_byte s b).grid r' c' = s.grid r' c') := by
  intro h
  obtain ⟨-, -, r, c, -, hframe⟩ :=
    h 66 (by decide) (run toLastCellOps initialWriter) ⟨toLastCellOps, rfl⟩
  by_cases hrc : r = 23 ∧ c = 79
  · have h1 := hframe 24 0
      (by rintro ⟨ha, -⟩; rw [hrc.1] at ha; exact absurd ha (by decide))
    exact absurd h1 (by decide)
  · have h1 := hframe 23 79 (fun hx => hrc ⟨hx.1.symm, hx.2.symm⟩)
    exact absurd h1 (by decide)

/-- C3 (amended): for every non-newline byte and every reachable state
whose derived position is not the last column of the last row (the one
case where `write_byte` first scrolls), `write_byte` stores
{glyph, current style} into exactly one cell, increments the cursor by
exactly 1, and changes nothing else. -/
theorem write_byte_single_cell (s : Writer) (b : Nat) (hb : b ≠ 10)
    (hreach : Reachable s)
    (hpos : ¬ (BUFFER_HEIGHT - 1 ≤ s.char_numbers / BUFFER_WIDTH ∧
               BUFFER_WIDTH - 1 ≤ s.char_numbers % BUFFER_WIDTH)) :
    (write_byte s b).char_numbers = s.char_numbers + 1 ∧
    (write_byte s b).color_code = s.color_code ∧
    ∃ r c, (write_byte s b).grid r c = ⟨b, s.color_code⟩ ∧
      ∀ r' c', ¬ (r' = r ∧ c' = c) → (write_byte s b).grid r' c' = s.grid r' c' := by
  clear hreach
  by_cases hrow : BUFFER_HEIGHT - 1 ≤ s.char_numbers / BUFFER_WIDTH
  · have hcol : ¬ BUFFER_WIDTH - 1 ≤ s.char_numbers % BUFFER_WIDTH :=
      fun hc => hpos ⟨hrow, hc⟩
    rw [write_byte_clamp s b hb hrow hcol]
    refine ⟨rfl, rfl, BUFFER_HEIGHT - 1, s.char_numbers % BUFFER_WIDTH, ?_, ?_⟩
    · show setCell s.grid (BUFFER_HEIGHT - 1) (s.char_numbers % BUFFER_WIDTH)
        ⟨b, s.color_code⟩ (BUFFER_HEIGHT - 1) (s.char_numbers % BUFFER_WIDTH) = _
      rw [setCell_apply]
      simp
    · intro r' c' hne
      show setCell s.grid (BUFFER_HEIGHT - 1) (s.char_numbers % BUFFER_WIDTH)
        ⟨b, s.color_code⟩ r' c' = s.grid r' c'
      rw [setCell_apply, if_neg hne]
  · rw [write_byte_normal s b hb hrow]
    refine ⟨rfl, rfl, s.char_numbers / BUFFER_WIDTH, s.char_numbers % BUFFER_WIDTH, ?_, ?_⟩
    · show setCell s.grid (s.char_numbers / BUFFER_WIDTH) (s.char_numbers % BUFFER_WIDTH)
        ⟨b, s.color_code⟩ (s.char_numbers / BUFFER_WIDTH) (s.char_numbers % BUFFER_WIDTH) = _
      rw [setCell_apply]
      simp
    · intro r' c' hne
      show setCell s.grid (s.char_numbers / BUFFER_WIDTH) (s.char_numbers % BUFFER_WIDTH)
        ⟨b, s.color_code⟩ r' c' = s.grid r' c'
      rw [setCell_apply, if_neg hne]

/-- Witness for C3's amended theorem: byte 65 at the initial state. -/
theorem write_byte_single_cell_witness :
    (65 : Nat) ≠ 10 ∧ Reachable initialWriter ∧
    ¬ (BUFFER_HEIGHT - 1 ≤ initialWriter.char_numbers / BUFFER_WIDTH ∧
       BUFFER_WIDTH - 1 ≤ initialWriter.char_numbers % BUFFER_WIDTH) ∧
    ((write_byte initialWriter 65).char_numbers = initialWriter.char_numbers + 1 ∧
     (write_byte initialWriter 65).color_code = initialWriter.color_code ∧
     ∃ r c, (write_byte initialWriter 65).grid r c = ⟨65, initialWriter.color_code⟩ ∧
       ∀ r' c', ¬ (r' = r ∧ c' = c) →
         (write_byte initialWriter 65).grid r' c' = initialWriter.grid r' c') :=
  ⟨by decide, ⟨[], rfl⟩, by decide,
    write_byte_single_cell initialWriter 65 (by decide) ⟨[], rfl⟩ (by decide)⟩

/-! ## Claim C5 -/

theorem copyRowAccesses_mem (src dst : Nat) (p : Nat × Nat)
    (hp : p ∈ copyRowAccesses src dst) :
    (p.1 = src ∨ p.1 = dst) ∧ p.2 < BUFFER_WIDTH := by
  unfold copyRowAccesses at hp
  simp only [List.mem_flatMap, List.mem_range, List.mem_cons,
    List.not_mem_nil, or_false] at hp
  obtain ⟨c, hc, hmem⟩ := hp
  rcases hmem with h | h
  · rw [h]; exact ⟨Or.inl rfl, hc⟩
  · rw [h]; exact ⟨Or.inr rfl, hc⟩

theorem scrollAccesses_mem (p : Nat × Nat) (hp : p ∈ scrollAccesses) :
    p.1 < BUFFER_HEIGHT ∧ p.2 < BUFFER_WIDTH := by
  unfold scrollAccesses at hp
  simp only [List.mem_flatMap, List.mem_range] at hp
  obtain ⟨k, hk, hmem⟩ := hp
  have h := copyRowAccesses_mem _ _ _ hmem
  refine ⟨?_, h.2⟩
  rcases h.1 with h1 | h1 <;> rw [h1] <;> omega

theorem clearRowAccesses_mem (row : Nat) (p : Nat × Nat)
    (hp : p ∈ clearRowAccesses row) :
    p.1 = row ∧ p.2 < BUFFER_WIDTH := by
  unfold clearRowAccesses at hp
  simp only [List.mem_map, List.mem_range] at hp
  obtain ⟨c, hc, hmem⟩ := hp
  rw [← hmem]
  exact ⟨rfl, hc⟩

theorem newLineAccesses_mem (s : Writer) (p : Nat × Nat)
    (hp : p ∈ newLineAccesses s) :
    p.1 < BUFFER_HEIGHT ∧ p.2 < BUFFER_WIDTH := by
  unfold newLineAccesses at hp
  split at hp
  · rcases List.mem_append.1 hp with h | h
    · exact scrollAccesses_mem p h
    · have := clearRowAccesses_mem _ p h
      refine ⟨?_, this.2⟩
      rw [this.1]
      simp only [BUFFER_HEIGHT]
      omega
  · simp at hp

theorem writeByteAccesses_mem (s : Writer) (b : Nat) (p : Nat × Nat)
    (hp : p ∈ writeByteAccesses s b) :
    p.1 < BUFFER_HEIGHT ∧ p.2 < BUFFER_WIDTH := by
  have hcol : s.char_numbers % BUFFER_WIDTH < BUFFER_WIDTH := Nat.mod_lt _ (by decide)
  simp only [writeByteAccesses] at hp
  split at hp
  · exact newLineAccesses_mem s p hp
  · split at hp
    · split at hp
      · rcases List.mem_append.1 hp with h | h
        · exact newLineAccesses_mem s p h
        · simp only [List.mem_singleton] at h
          rw [h]
          refine ⟨?_, ?_⟩
          · show BUFFER_HEIGHT - 2 < BUFFER_HEIGHT
            decide
          · exact hcol
      · simp only [List.mem_singleton] at hp
        rw [hp]
        refine ⟨?_, ?_⟩
        · show BUFFER_HEIGHT - 1 < BUFFER_HEIGHT
          decide
        · exact hcol
    · simp only [List.mem_singleton] at hp
      rw [hp]
      refine ⟨?_, ?_⟩
      · show s.char_numbers / BUFFER_WIDTH < BUFFER_HEIGHT
        simp only [BUFFER_HEIGHT] at *
        omega
      · exact hcol

theorem writeStringAccesses_mem (bs : List Nat) (s : Writer) (p : Nat × Nat)
    (hp : p ∈ writeStringAccesses s bs) :
    p.1 < BUFFER_HEIGHT ∧ p.2 < BUFFER_WIDTH := by
  induction bs generalizing s with
  | nil => simp [writeStringAccesses] at hp
  | cons b rest ih =>
    simp only [writeStringAccesses] at hp
    rcases List.mem_append.1 hp with h | h
    · exact writeByteAccesses_mem _ _ p h
    · exact ih _ h

theorem runAccesses_mem (ops : List Op) (s : Writer) (p : Nat × Nat)
    (hp : p ∈ runAccesses s ops) :
    p.1 < BUFFER_HEIGHT ∧ p.2 < BUFFER_WIDTH := by
  induction ops generalizing s with
  | nil => simp [runAccesses] at hp
  | cons op rest ih =>
    simp only [runAccesses] at hp
    rcases List.mem_append.1 hp with h | h
    · cases op with
      | byte b => exact writeByteAccesses_mem _ _ p h
      | str bs => exact writeStringAccesses_mem _ _ p h
    · exact ih _ h

/-- C5: every grid cell access performed by `write_byte` (and the
`new_line` / `clear_row` calls inside it) while executing any sequence
of operations from the initial state has row index < ROWS = 25 and
column index < COLS = 80. -/
theorem run_accesses_in_bounds (ops : List Op) (p : Nat × Nat)
    (hp : p ∈ runAccesses initialWriter ops) :
    p.1 < BUFFER_HEIGHT ∧ p.2 < BUFFER_WIDTH :=
  runAccesses_mem ops initialWriter p hp

/-- Witness for C5 on the one-byte program. -/
theorem run_accesses_in_bounds_witness :
    ((0, 0) : Nat × Nat) ∈ runAccesses initialWriter [Op.byte 65] ∧
    ((0, 0) : Nat × Nat).1 < BUFFER_HEIGHT ∧
    ((0, 0) : Nat × Nat).2 < BUFFER_WIDTH :=
  ⟨by decide, run_accesses_in_bounds [Op.byte 65] (0, 0) (by decide)⟩

/-! ## Claim C6 -/

theorem new_lineC_eq (s : Writer) : new_lineC s = some (new_line s) := by
  have hg := nlGuard_bounds s.char_numbers
  have hadd : nlGuard s.char_numbers + BUFFER_WIDTH ≤ USIZE_MAX := by
    simp only [USIZE_MAX_eq, BUFFER_WIDTH, BUFFER_HEIGHT] at *
    omega
  have hsub : nlGuard s.char_numbers % BUFFER_WIDTH ≤
      nlGuard s.char_numbers + BUFFER_WIDTH := by
    have h1 := Nat.mod_le (nlGuard s.char_numbers) BUFFER_WIDTH
    omega
  unfold new_lineC
  simp only [checkedAdd, checkedSub, if_pos hadd, if_pos hsub]
  unfold new_line nlCursor
  by_cases hc : BUFFER_HEIGHT - 1 ≤
      (nlGuard s.char_numbers + BUFFER_WIDTH -
        nlGuard s.char_numbers % BUFFER_WIDTH) / BUFFER_WIDTH
  · simp only [if_pos hc]
  · simp only [if_neg hc]

/-- C6: when a newline is processed with the cursor within one page of
`usize::MAX`, the counter is first reduced modulo ROWS*COLS, the
checked-arithmetic model does not fail, and the resulting cursor's
derived column and derived visible row (row taken modulo ROWS) agree
with the unbounded-integer model of the same step. -/
theorem newline_overflow_guard (s : Writer)
    (h : USIZE_MAX - BUFFER_WIDTH * BUFFER_HEIGHT ≤ s.char_numbers) :
    nlGuard s.char_numbers = s.char_numbers % (BUFFER_WIDTH * BUFFER_HEIGHT) ∧
    new_lineC s = some (new_line s) ∧
    (new_line s).char_numbers % BUFFER_WIDTH =
      unboundedNlCursor s.char_numbers % BUFFER_WIDTH ∧
    (new_line s).char_numbers / BUFFER_WIDTH % BUFFER_HEIGHT =
      unboundedNlCursor s.char_numbers / BUFFER_WIDTH % BUFFER_HEIGHT := by
  have hguard : nlGuard s.char_numbers =
      s.char_numbers % (BUFFER_WIDTH * BUFFER_HEIGHT) := by
    unfold nlGuard
    rw [if_pos h]
  refine ⟨hguard, new_lineC_eq s, ?_, ?_⟩
  · rw [new_line_char_numbers, nlCursor_mod]
    unfold unboundedNlCursor
    simp only [BUFFER_WIDTH]
    omega
  · rw [new_line_char_numbers]
    unfold nlCursor unboundedNlCursor
    rw [hguard]
    simp only [BUFFER_WIDTH, BUFFER_HEIGHT]
    omega

/-- Witness for C6 at cursor `usize::MAX - 1000`. -/
theorem newline_overflow_guard_witness :
    USIZE_MAX - BUFFER_WIDTH * BUFFER_HEIGHT ≤ nearMaxWriter.char_numbers ∧
    (nlGuard nearMaxWriter.char_numbers =
      nearMaxWriter.char_numbers % (BUFFER_WIDTH * BUFFER_HEIGHT) ∧
     new_lineC nearMaxWriter = some (new_line nearMaxWriter) ∧
     (new_line nearMaxWriter).char_numbers % BUFFER_WIDTH =
       unboundedNlCursor nearMaxWriter.char_numbers % BUFFER_WIDTH ∧
     (new_line nearMaxWriter).char_numbers / BUFFER_WIDTH % BUFFER_HEIGHT =
       unboundedNlCursor nearMaxWriter.char_numbers / BUFFER_WIDTH %
         BUFFER_HEIGHT) :=
  ⟨by decide, newline_overflow_guard nearMaxWriter (by decide)⟩

/-! ## Claim C4 -/

theorem write_byteC_eq (s : Writer) (b : Nat) (hInv : Inv s) :
    write_byteC s b = some (write_byte s b) := by
  by_cases hb : b = 10
  · unfold write_byteC write_byte
    simp only [if_pos hb]
    exact new_lineC_eq s
  · by_cases hrow : BUFFER_HEIGHT - 1 ≤ s.char_numbers / BUFFER_WIDTH
    · by_cases hcol : BUFFER_WIDTH - 1 ≤ s.char_numbers % BUFFER_WIDTH
      · have h1 : (1 : Nat) ≤ (new_line s).char_numbers := by
          rw [new_line_char_numbers]
          have := nlCursor_ge s.char_numbers
          simp only [BUFFER_WIDTH] at this
          omega
        have h2 : (new_line s).char_numbers - 1 + 1 ≤ USIZE_MAX := by
          rw [new_line_char_numbers]
          have := nlCursor_le s.char_numbers
          simp only [USIZE_MAX_eq] at *
          omega
        unfold write_byteC write_byte
        simp only [if_neg hb, if_pos hrow, if_pos hcol, new_lineC_eq s,
          checkedSub, checkedAdd, if_pos h1, if_pos h2]
      · have h2 : s.char_numbers + 1 ≤ USIZE_MAX := by
          unfold Inv at hInv
          simp only [USIZE_MAX_eq] at *
          omega
        unfold write_byteC write_byte
        simp only [if_neg hb, if_pos hrow, if_neg hcol, checkedAdd, if_pos h2]
    · have h2 : s.char_numbers + 1 ≤ USIZE_MAX := by
        unfold Inv at hInv
        simp only [USIZE_MAX_eq] at *
        omega
      unfold write_byteC write_byte
      simp only [if_neg hb, if_neg hrow, checkedAdd, if_pos h2]

theorem write_byte_inv (s : Writer) (b : Nat) (hInv : Inv s) :
    Inv (write_byte s b) := by
  unfold Inv at *
  by_cases hb : b = 10
  · rw [hb, write_byte_newline, new_line_char_numbers]
    have := nlCursor_le s.char_numbers
    simp only [USIZE_MAX_eq] at *
    omega
  · by_cases hrow : BUFFER_HEIGHT - 1 ≤ s.char_numbers / BUFFER_WIDTH
    · by_cases hcol : BUFFER_WIDTH - 1 ≤ s.char_numbers % BUFFER_WIDTH
      · rw [write_byte_last s b hb hrow hcol]
        show (new_line s).char_numbers - 1 + 1 ≤ _
        rw [new_line_char_numbers]
        have h1 := nlCursor_le s.char_numbers
        have h2 := nlCursor_ge s.char_numbers
        simp only [USIZE_MAX_eq, BUFFER_WIDTH] at *
        omega
      · rw [write_byte_clamp s b hb hrow hcol]
        show s.char_numbers + 1 ≤ _
        simp only [USIZE_MAX_eq, BUFFER_WIDTH] at *
        omega
    · rw [write_byte_normal s b hb hrow]
      show s.char_numbers + 1 ≤ _
      simp only [USIZE_MAX_eq, BUFFER_WIDTH, BUFFER_HEIGHT] at *
      omega

theorem byteArg_comm (st : Writer) (b : Nat) :
    (if printableOrNewline b then write_byte st b else write_byte st 0xfe) =
      write_byte st (if printableOrNewline b then b else 0xfe) := by
  split <;> rfl

theorem write_string_cons (s : Writer) (b : Nat) (rest : List Nat) :
    write_string s (b :: rest) =
      write_string (write_byte s (if printableOrNewline b then b else 0xfe)) rest := by
  simp only [write_string, List.foldl_cons]
  rw [byteArg_comm]

theorem write_stringC_eq (bs : List Nat) (s : Writer) (hInv : Inv s) :
    write_stringC s bs = some (write_string s bs) ∧ Inv (write_string s bs) := by
  induction bs generalizing s with
  | nil => exact ⟨rfl, hInv⟩
  | cons b rest ih =>
    have hInv' : Inv (write_byte s (if printableOrNewline b then b else 0xfe)) :=
      write_byte_inv _ _ hInv
    rw [write_string_cons]
    constructor
    · show write_stringC s (b :: rest) = _
      unfold write_stringC
      rw [write_byteC_eq s _ hInv]
      exact (ih _ hInv').1
    · exact (ih _ hInv').2

theorem runC_eq (ops : List Op) (s : Writer) (hInv : Inv s) :
    runC ops s = some (run ops s) ∧ Inv (run ops s) := by
  induction ops generalizing s with
  | nil => exact ⟨rfl, hInv⟩
  | cons op rest ih =>
    have hrun : run (op :: rest) s = run rest (runOp s op) := rfl
    have hInv' : Inv (runOp s op) := by
      cases op with
      | byte b => exact write_byte_inv s b hInv
      | str bs => exact (write_stringC_eq bs s hInv).2
    have hopc : runOpC s op = some (runOp s op) := by
      cases op with
      | byte b => exact write_byteC_eq s b hInv
      | str bs => exact (write_stringC_eq bs s hInv).1
    constructor
    · show runC (op :: rest) s = _
      unfold runC
      rw [hopc, hrun]
      exact (ih _ hInv').1
    · rw [hrun]
      exact (ih _ hInv').2

/-- C4: for every finite sequence of `write_byte` / `write_string`
calls from the initial state, the checked-arithmetic model (which fails
on any usize addition overflow or subtraction underflow) succeeds and
agrees with the unchecked model: no cursor arithmetic ever wraps. -/
theorem run_checked_never_overflows (ops : List Op) :
    runC ops initialWriter = some (run ops initialWriter) :=
  (runC_eq ops initialWriter (Nat.zero_le _)).1

/-! ## Claim C7 -/

theorem write_byte_grid_normal (s : Writer) (b : Nat) (hb : b ≠ 10)
    (hrow : ¬ BUFFER_HEIGHT - 1 ≤ s.char_numbers / BUFFER_WIDTH) :
    (write_byte s b).grid =
      setCell s.grid (s.char_numbers / BUFFER_WIDTH) (s.char_numbers % BUFFER_WIDTH)
        ⟨b, s.color_code⟩ := by
  rw [write_byte_normal s b hb hrow]

theorem write_byte_grid_clamp (s : Writer) (b : Nat) (hb : b ≠ 10)
    (hrow : BUFFER_HEIGHT - 1 ≤ s.char_numbers / BUFFER_WIDTH)
    (hcol : ¬ BUFFER_WIDTH - 1 ≤ s.char_numbers % BUFFER_WIDTH) :
    (write_byte s b).grid =
      setCell s.grid (BUFFER_HEIGHT - 1) (s.char_numbers % BUFFER_WIDTH)
        ⟨b, s.color_code⟩ := by
  rw [write_byte_clamp s b hb hrow hcol]

theorem write_byte_grid_last (s : Writer) (b : Nat) (hb : b ≠ 10)
    (hrow : BUFFER_HEIGHT - 1 ≤ s.char_numbers / BUFFER_WIDTH)
    (hcol : BUFFER_WIDTH - 1 ≤ s.char_numbers % BUFFER_WIDTH) :
    (write_byte s b).grid =
      setCell (new_line s).grid (BUFFER_HEIGHT - 2) (s.char_numbers % BUFFER_WIDTH)
        ⟨b, s.color_code⟩ := by
  rw [write_byte_last s b hb hrow hcol, new_line_color]

theorem new_line_grid_cases (s : Writer) (r c : Nat) :
    (∃ r0 c0, (new_line s).grid r c = s.grid r0 c0) ∨
    (new_line s).grid r c = blank s.color_code := by
  by_cases hcond : BUFFER_HEIGHT - 1 ≤ nlCursor s.char_numbers / BUFFER_WIDTH
  · rw [new_line_grid_scroll s hcond, scrolled_apply]
    split_ifs with h1 h2
    · exact Or.inr rfl
    · exact Or.inl ⟨r + 1, c, rfl⟩
    · exact Or.inl ⟨r, c, rfl⟩
  · rw [new_line_grid_no_scroll s hcond]
    exact Or.inl ⟨r, c, rfl⟩

/-- Provenance of one cell after `write_byte`: an old cell, the byte
just written (only for non-newline bytes), or a blank of the current
style. -/
theorem write_byte_grid_cases (s : Writer) (b : Nat) (r c : Nat) :
    (∃ r0 c0, (write_byte s b).grid r c = s.grid r0 c0) ∨
    ((write_byte s b).grid r c = ⟨b, s.color_code⟩ ∧ b ≠ 10) ∨
    (write_byte s b).grid r c = blank s.color_code := by
  by_cases hb : b = 10
  · subst hb
    rw [write_byte_newline]
    rcases new_line_grid_cases s r c with ⟨r0, c0, h⟩ | h
    · exact Or.inl ⟨r0, c0, h⟩
    · exact Or.inr (Or.inr h)
  · by_cases hrow : BUFFER_HEIGHT - 1 ≤ s.char_numbers / BUFFER_WIDTH
    · by_cases hcol : BUFFER_WIDTH - 1 ≤ s.char_numbers % BUFFER_WIDTH
      · rw [write_byte_grid_last s b hb hrow hcol, setCell_apply]
        split_ifs with h1
        · exact Or.inr (Or.inl ⟨rfl, hb⟩)
        · rcases new_line_grid_cases s r c with ⟨r0, c0, h⟩ | h
          · exact Or.inl ⟨r0, c0, h⟩
          · exact Or.inr (Or.inr h)
      · rw [write_byte_grid_clamp s b hb hrow hcol, setCell_apply]
        split_ifs with h1
        · exact Or.inr (Or.inl ⟨rfl, hb⟩)
        · exact Or.inl ⟨r, c, rfl⟩
    · rw [write_byte_grid_normal s b hb hrow, setCell_apply]
      split_ifs with h1
      · exact Or.inr (Or.inl ⟨rfl, hb⟩)
      · exact Or.inl ⟨r, c, rfl⟩

theorem cellOK_write_byte (s0 s : Writer) (x : Nat)
    (hOK : ∀ r c, CellOK s0 (s.grid r c)) (r c : Nat) :
    CellOK s0 ((write_byte s (specForward x)).grid r c) := by
  rcases write_byte_grid_cases s (specForward x) r c with ⟨r0, c0, h⟩ | ⟨h, hne⟩ | h
  · rw [CellOK, h]
    rcases hOK r0 c0 with h1 | h1 | h1
    · exact Or.inl h1
    · exact Or.inr (Or.inl h1)
    · exact Or.inr (Or.inr h1)
  · rw [CellOK, h]
    by_cases hx : printableOrNewline x
    · have hfx : specForward x = x := by
        unfold specForward
        rw [if_pos hx]
      rcases hx with hpr | h10
      · refine Or.inr (Or.inl ?_)
        show 0x20 ≤ specForward x ∧ specForward x ≤ 0x7e
        rw [hfx]
        exact hpr
      · exact absurd (hfx.trans h10) hne
    · refine Or.inr (Or.inr ?_)
      show specForward x = 0xfe
      unfold specForward
      rw [if_neg hx]
  · rw [CellOK, h]
    refine Or.inr (Or.inl ?_)
    show (0x20 : Nat) ≤ 32 ∧ (32 : Nat) ≤ 0x7e
    decide

theorem write_string_cellOK (bs : List Nat) (s0 s : Writer)
    (hOK : ∀ r c, CellOK s0 (s.grid r c)) (r c : Nat) :
    CellOK s0 ((write_string s bs).grid r c) := by
  induction bs generalizing s with
  | nil => exact hOK r c
  | cons b rest ih =>
    rw [write_string_cons]
    exact ih _ (cellOK_write_byte s0 s b hOK)

/-- C7: `write_string` forwards printable-ASCII bytes and newlines to
`write_byte` unchanged and forwards the placeholder 0xFE in place of
every other byte (first conjunct: `write_string` coincides with
forwarding the spec-side mapping `specForward` of each byte); as a
consequence every grid cell after `write_string` is either a cell value
the grid already contained or has a printable-ASCII glyph or the
placeholder glyph 0xFE — an out-of-range byte value is never stored. -/
theorem write_string_placeholder (s : Writer) (bs : List Nat) :
    write_string s bs = (bs.map specForward).foldl write_byte s ∧
    ∀ r c, CellOK s ((write_string s bs).grid r c) := by
  constructor
  · rw [List.foldl_map]
    unfold write_string
    congr 1
    funext st b
    unfold specForward
    exact byteArg_comm st b
  · exact fun r c =>
      write_string_cellOK bs s s (fun r0 c0 => Or.inl ⟨r0, c0, rfl⟩) r c

/-! ## Claim C8 -/

theorem run_append (l1 l2 : List Op) (s : Writer) :
    run (l1 ++ l2) s = run l2 (run l1 s) := by
  simp [run, List.foldl_append]

theorem runScrollCount_append (l1 l2 : List Op) (s : Writer) :
    runScrollCount s (l1 ++ l2) =
      runScrollCount s l1 + runScrollCount (run l1 s) l2 := by
  induction l1 generalizing s with
  | nil =>
    show runScrollCount s l2 = 0 + runScrollCount (run [] s) l2
    rw [Nat.zero_add]
    rfl
  | cons op rest ih =>
    show (match op with
          | .byte b => writeByteScrollCount s b
          | .str bs => writeStringScrollCount s bs) +
        runScrollCount (runOp s op) (rest ++ l2) = _
    rw [ih (runOp s op)]
    show _ = (match op with
          | .byte b => writeByteScrollCount s b
          | .str bs => writeStringScrollCount s bs) +
        runScrollCount (runOp s op) rest + runScrollCount (run rest (runOp s op)) l2
    omega

/-- Writing a list of non-newline bytes entirely inside the first
page (end position at most 1999): the cursor advances by the number of
bytes, no scroll happens, and cell (r, c) receives the byte whose write
position is 80*r + c, all other cells untouched. -/
theorem fillMulti (bs : List Nat) (s : Writer)
    (hnn : ∀ b ∈ bs, b ≠ 10)
    (hbound : s.char_numbers + bs.length ≤ 1999) :
    (run (bs.map Op.byte) s).char_numbers = s.char_numbers + bs.length ∧
    (run (bs.map Op.byte) s).color_code = s.color_code ∧
    runScrollCount s (bs.map Op.byte) = 0 ∧
    ∀ r c, (run (bs.map Op.byte) s).grid r c =
      if c < 80 ∧ s.char_numbers ≤ 80 * r + c ∧
          80 * r + c < s.char_numbers + bs.length
      then ⟨bs.getD (80 * r + c - s.char_numbers) 0, s.color_code⟩
      else s.grid r c := by
  induction bs generalizing s with
  | nil =>
    refine ⟨by simp [run], rfl, rfl, ?_⟩
    intro r c
    rw [if_neg (by simp)]
    rfl
  | cons b rest ih =>
    have hb10 : b ≠ 10 := hnn b (List.mem_cons_self b rest)
    have hrest10 : ∀ b' ∈ rest, b' ≠ 10 :=
      fun b' h' => hnn b' (List.mem_cons_of_mem b h')
    have hc0le : s.char_numbers ≤ 1998 := by
      simp only [List.length_cons] at hbound
      omega
    have hwb : write_byte s b =
        { s with
          grid := setCell s.grid (s.char_numbers / 80) (s.char_numbers % 80)
            ⟨b, s.color_code⟩
          char_numbers := s.char_numbers + 1 } := by
      by_cases hrow : BUFFER_HEIGHT - 1 ≤ s.char_numbers / BUFFER_WIDTH
      · have hcol : ¬ BUFFER_WIDTH - 1 ≤ s.char_numbers % BUFFER_WIDTH := by
          simp only [BUFFER_WIDTH, BUFFER_HEIGHT] at *
          omega
        rw [write_byte_clamp s b hb10 hrow hcol]
        have h24 : (BUFFER_HEIGHT - 1 : Nat) = s.char_numbers / 80 := by
          simp only [BUFFER_WIDTH, BUFFER_HEIGHT] at *
          omega
        rw [h24]
        rfl
      · rw [write_byte_normal s b hb10 hrow]
        rfl
    have hwb_cur : (write_byte s b).char_numbers = s.char_numbers + 1 := by
      rw [hwb]
    have hwb_col : (write_byte s b).color_code = s.color_code := by
      rw [hwb]
    have hwb_grid : (write_byte s b).grid =
        setCell s.grid (s.char_numbers / 80) (s.char_numbers % 80)
          ⟨b, s.color_code⟩ := by
      rw [hwb]
    have hscr : writeByteScrollCount s b = 0 := by
      have hno : ¬ (BUFFER_HEIGHT - 1 ≤ s.char_numbers / BUFFER_WIDTH ∧
          BUFFER_WIDTH - 1 ≤ s.char_numbers % BUFFER_WIDTH) := by
        simp only [BUFFER_WIDTH, BUFFER_HEIGHT]
        omega
      unfold writeByteScrollCount
      rw [if_neg hb10, if_neg hno]
    obtain ⟨ihcur, ihcol, ihscr, ihgrid⟩ :=
      ih (write_byte s b) hrest10
        (by rw [hwb_cur]; simp only [List.length_cons] at hbound; omega)
    have hstep : run ((b :: rest).map Op.byte) s =
        run (rest.map Op.byte) (write_byte s b) := rfl
    refine ⟨?_, ?_, ?_, ?_⟩
    · rw [hstep, ihcur, hwb_cur, List.length_cons]
      omega
    · rw [hstep, ihcol, hwb_col]
    · show writeByteScrollCount s b +
        runScrollCount (write_byte s b) (rest.map Op.byte) = 0
      rw [hscr, ihscr]
    · intro r c
      rw [hstep, ihgrid r c, hwb_cur, hwb_col, hwb_grid, setCell_apply,
        List.length_cons]
      have hm80 : s.char_numbers % 80 < 80 := by omega
      have hdm : 80 * (s.char_numbers / 80) + s.char_numbers % 80 =
          s.char_numbers := by omega
      by_cases hcw : c < 80
      · by_cases hPos : 80 * r + c = s.char_numbers
        · have hrc : r = s.char_numbers / 80 ∧ c = s.char_numbers % 80 := by
            constructor <;> omega
          rw [if_neg (by omega), if_pos hrc, if_pos (by
            refine ⟨hcw, by omega, by omega⟩)]
          rw [show 80 * r + c - s.char_numbers = 0 from by omega]
          rw [List.getD_cons_zero]
        · by_cases hIn : s.char_numbers + 1 ≤ 80 * r + c ∧
              80 * r + c < s.char_numbers + 1 + rest.length
          · rw [if_pos ⟨hcw, hIn.1, hIn.2⟩,
              if_pos (⟨hcw, by omega, by omega⟩ :
                c < 80 ∧ s.char_numbers ≤ 80 * r + c ∧
                  80 * r + c < s.char_numbers + (rest.length + 1))]
            rw [show 80 * r + c - s.char_numbers =
                (80 * r + c - (s.char_numbers + 1)) + 1 from by omega]
            rw [List.getD_cons_succ]
          · have hne1 : ¬ (c < 80 ∧ s.char_numbers + 1 ≤ 80 * r + c ∧
                80 * r + c < s.char_numbers + 1 + rest.length) := by
              omega
            have hne2 : ¬ (r = s.char_numbers / 80 ∧ c = s.char_numbers % 80) := by
              omega
            have hne3 : ¬ (c < 80 ∧ s.char_numbers ≤ 80 * r + c ∧
                80 * r + c < s.char_numbers + (rest.length + 1)) := by
              omega
            rw [if_neg hne1, if_neg hne2, if_neg hne3]
      · have hne1 : ¬ (c < 80 ∧ s.char_numbers + 1 ≤ 80 * r + c ∧
            80 * r + c < s.char_numbers + 1 + rest.length) := by
          omega
        have hne2 : ¬ (r = s.char_numbers / 80 ∧ c = s.char_numbers % 80) := by
          omega
        have hne3 : ¬ (c < 80 ∧ s.char_numbers ≤ 80 * r + c ∧
            80 * r + c < s.char_numbers + (rest.length + 1)) := by
          omega
        rw [if_neg hne1, if_neg hne2, if_neg hne3]

theorem runScrollCount_single (s : Writer) (b : Nat) :
    runScrollCount s [Op.byte b] = writeByteScrollCount s b := rfl

/-- C8: starting from the empty initial state, writing any ROWS*COLS
printable bytes followed by one further printable byte causes exactly
one scroll in total; afterwards the extra byte sits in the first column
of the last row, the rest of the last row is freshly blank, and row 0
holds the bytes that were written to logical row 1 — row 0's original
content (bytes 0..COLS-1) is discarded. -/
theorem fill_page_plus_one (bs : List Nat) (x : Nat)
    (hlen : bs.length = BUFFER_HEIGHT * BUFFER_WIDTH)
    (hpr : ∀ b ∈ bs, 0x20 ≤ b ∧ b ≤ 0x7e)
    (hx : 0x20 ≤ x ∧ x ≤ 0x7e) :
    runScrollCount initialWriter (bs.map Op.byte ++ [Op.byte x]) = 1 ∧
    (run (bs.map Op.byte ++ [Op.byte x]) initialWriter).grid
        (BUFFER_HEIGHT - 1) 0 = ⟨x, initialWriter.color_code⟩ ∧
    (∀ j, 0 < j → j < BUFFER_WIDTH →
      (run (bs.map Op.byte ++ [Op.byte x]) initialWriter).grid
          (BUFFER_HEIGHT - 1) j = blank initialWriter.color_code) ∧
    (∀ j, j < BUFFER_WIDTH →
      (run (bs.map Op.byte ++ [Op.byte x]) initialWriter).grid 0 j =
        ⟨bs.getD (BUFFER_WIDTH + j) 0, initialWriter.color_code⟩) := by
  have hx10 : x ≠ 10 := by omega
  have hnn : ∀ b ∈ bs, b ≠ 10 := fun b h => by
    have := hpr b h
    omega
  have hne : bs ≠ [] := by
    intro h
    rw [h] at hlen
    exact absurd hlen (by decide)
  have hinit : initialWriter.char_numbers = 0 := rfl
  set ys := bs.dropLast with hys
  set z := bs.getLast hne with hz
  have hsplit : ys ++ [z] = bs := List.dropLast_append_getLast hne
  have hyslen : ys.length = 1999 := by
    rw [hys, List.length_dropLast bs, hlen]
    decide
  have hz10 : z ≠ 10 := hnn z (List.getLast_mem hne)
  have hops : bs.map Op.byte ++ [Op.byte x] =
      ys.map Op.byte ++ ([Op.byte z] ++ [Op.byte x]) := by
    rw [← hsplit, List.map_append, List.append_assoc]
    rfl
  obtain ⟨h1cur, h1col, h1scr, h1grid⟩ :=
    fillMulti ys initialWriter
      (fun b hb => hnn b (by rw [← hsplit]; exact List.mem_append_left _ hb))
      (by rw [hyslen, hinit])
  set s1 := run (ys.map Op.byte) initialWriter with hs1
  have hs1cur : s1.char_numbers = 1999 := by
    rw [h1cur, hyslen, hinit]
  have hrow2 : BUFFER_HEIGHT - 1 ≤ s1.char_numbers / BUFFER_WIDTH := by
    rw [hs1cur]
    decide
  have hcol2 : BUFFER_WIDTH - 1 ≤ s1.char_numbers % BUFFER_WIDTH := by
    rw [hs1cur]
    decide
  have hscroll2 : BUFFER_HEIGHT - 1 ≤ nlCursor s1.char_numbers / BUFFER_WIDTH := by
    rw [hs1cur]
    decide
  set s2 := write_byte s1 z with hs2
  have hs2cur : s2.char_numbers = 2000 := by
    rw [hs2, write_byte_last s1 z hz10 hrow2 hcol2]
    show (new_line s1).char_numbers - 1 + 1 = 2000
    rw [new_line_char_numbers, hs1cur]
    decide
  have hs2col : s2.color_code = initialWriter.color_code := by
    rw [hs2, write_byte_color, h1col]
  have hs2grid : s2.grid =
      setCell (clear_row (scrollRows s1.grid) (BUFFER_HEIGHT - 1) s1.color_code)
        (BUFFER_HEIGHT - 2) (s1.char_numbers % BUFFER_WIDTH) ⟨z, s1.color_code⟩ := by
    rw [hs2, write_byte_grid_last s1 z hz10 hrow2 hcol2,
      new_line_grid_scroll s1 hscroll2]
  have hscr2 : writeByteScrollCount s1 z = 1 := by
    unfold writeByteScrollCount newLineScrollCount
    rw [if_neg hz10, if_pos ⟨hrow2, hcol2⟩, if_pos hscroll2]
  have hrow3 : BUFFER_HEIGHT - 1 ≤ s2.char_numbers / BUFFER_WIDTH := by
    rw [hs2cur]
    decide
  have hcol3 : ¬ BUFFER_WIDTH - 1 ≤ s2.char_numbers % BUFFER_WIDTH := by
    rw [hs2cur]
    decide
  set s3 := write_byte s2 x with hs3
  have hs3grid : s3.grid =
      setCell s2.grid (BUFFER_HEIGHT - 1) (s2.char_numbers % BUFFER_WIDTH)
        ⟨x, s2.color_code⟩ := by
    rw [hs3, write_byte_grid_clamp s2 x hx10 hrow3 hcol3]
  have hscr3 : writeByteScrollCount s2 x = 0 := by
    unfold writeByteScrollCount
    rw [if_neg hx10, if_neg (fun hc => hcol3 hc.2)]
  have hrun1 : run [Op.byte z] s1 = s2 := rfl
  have hrunall : run (bs.map Op.byte ++ [Op.byte x]) initialWriter = s3 := by
    rw [hops, run_append, run_append, hrun1]
    rfl
  have hscrall :
      runScrollCount initialWriter (bs.map Op.byte ++ [Op.byte x]) = 1 := by
    rw [hops, runScrollCount_append, h1scr, runScrollCount_append,
      runScrollCount_single, runScrollCount_single, hscr2, hrun1, hscr3]
  refine ⟨hscrall, ?_, ?_, ?_⟩
  · rw [hrunall, hs3grid, setCell_apply,
      if_pos ⟨rfl, by rw [hs2cur]; decide⟩, hs2col]
  · intro j hj0 hjW
    have hno : ¬ (BUFFER_HEIGHT - 1 = BUFFER_HEIGHT - 1 ∧
        j = s2.char_numbers % BUFFER_WIDTH) := by
      rw [hs2cur]
      simp only [BUFFER_WIDTH]
      omega
    have hno2 : ¬ (BUFFER_HEIGHT - 1 = BUFFER_HEIGHT - 2 ∧
        j = s1.char_numbers % BUFFER_WIDTH) := by
      simp only [BUFFER_HEIGHT]
      omega
    rw [hrunall, hs3grid, setCell_apply, if_neg hno, hs2grid, setCell_apply,
      if_neg hno2, scrolled_apply, if_pos ⟨rfl, hjW⟩, h1col]
  · intro j hjW
    have hj80 : j < 80 := by
      simp only [BUFFER_WIDTH] at hjW
      omega
    have hno : ¬ ((0 : Nat) = BUFFER_HEIGHT - 1 ∧
        j = s2.char_numbers % BUFFER_WIDTH) := by
      simp only [BUFFER_HEIGHT]
      omega
    have hno2 : ¬ ((0 : Nat) = BUFFER_HEIGHT - 2 ∧
        j = s1.char_numbers % BUFFER_WIDTH) := by
      simp only [BUFFER_HEIGHT]
      omega
    have hno3 : ¬ ((0 : Nat) = BUFFER_HEIGHT - 1 ∧ j < BUFFER_WIDTH) := by
      simp only [BUFFER_HEIGHT]
      omega
    have hyes : (0 : Nat) < BUFFER_HEIGHT - 1 ∧ j < BUFFER_WIDTH :=
      ⟨by decide, hjW⟩
    rw [hrunall, hs3grid, setCell_apply, if_neg hno, hs2grid, setCell_apply,
      if_neg hno2, scrolled_apply, if_neg hno3, if_pos hyes, h1grid (0 + 1) j,
      if_pos (⟨hj80, by rw [hinit]; omega, by rw [hinit, hyslen]; omega⟩ :
        j < 80 ∧ initialWriter.char_numbers ≤ 80 * (0 + 1) + j ∧
          80 * (0 + 1) + j < initialWriter.char_numbers + ys.length)]
    rw [show 80 * (0 + 1) + j - initialWriter.char_numbers =
        BUFFER_WIDTH + j from by rw [hinit]; simp only [BUFFER_WIDTH]; omega]
    rw [← hsplit, List.getD_append _ _ _ _ (by
      rw [hyslen]
      simp only [BUFFER_WIDTH]
      omega)]

theorem pageFillBytes_length :
    pageFillBytes.length = BUFFER_HEIGHT * BUFFER_WIDTH := by
  have haux : ∀ k, ((List.range k).flatMap rowFillBytes).length = k * 80 := by
    intro k
    induction k with
    | zero => rfl
    | succ k ih =>
      rw [List.range_succ, List.flatMap_append, List.length_append, ih]
      simp [rowFillBytes, BUFFER_WIDTH]
      omega
  rw [pageFillBytes, haux]
  rfl

theorem pageFillBytes_printable :
    ∀ b ∈ pageFillBytes, 0x20 ≤ b ∧ b ≤ 0x7e := by
  intro b hb
  simp only [pageFillBytes, rowFillBytes, List.mem_flatMap, List.mem_range,
    List.mem_replicate] at hb
  obtain ⟨r, hr, -, hbe⟩ := hb
  simp only [BUFFER_HEIGHT] at hr
  omega

/-- Witness for C8: the concrete page fill whose row `r` carries glyph
`33 + r`, plus the extra byte 65. -/
theorem fill_page_plus_one_witness :
    pageFillBytes.length = BUFFER_HEIGHT * BUFFER_WIDTH ∧
    (∀ b ∈ pageFillBytes, 0x20 ≤ b ∧ b ≤ 0x7e) ∧
    ((0x20 : Nat) ≤ 65 ∧ (65 : Nat) ≤ 0x7e) ∧
    (runScrollCount initialWriter (pageFillBytes.map Op.byte ++ [Op.byte 65]) = 1 ∧
     (run (pageFillBytes.map Op.byte ++ [Op.byte 65]) initialWriter).grid
         (BUFFER_HEIGHT - 1) 0 = ⟨65, initialWriter.color_code⟩ ∧
     (∀ j, 0 < j → j < BUFFER_WIDTH →
       (run (pageFillBytes.map Op.byte ++ [Op.byte 65]) initialWriter).grid
           (BUFFER_HEIGHT - 1) j = blank initialWriter.color_code) ∧
     (∀ j, j < BUFFER_WIDTH →
       (run (pageFillBytes.map Op.byte ++ [Op.byte 65]) initialWriter).grid 0 j =
         ⟨pageFillBytes.getD (BUFFER_WIDTH + j) 0, initialWriter.color_code⟩)) :=
  ⟨pageFillBytes_length, pageFillBytes_printable, by decide,
    fill_page_plus_one pageFillBytes 65 pageFillBytes_length
      pageFillBytes_printable (by decide)⟩

end VgaBuffer
